import Mathlib

/-!
# Verification of the BiomedCoOp result-logging and aggregation core

A shallow embedding of `log_results.py` and `aggregate_kaggle_results.py`.

Python floats are modelled as exact rationals (`ℚ`); the numeric flows in
these scripts are short decimal literals parsed from log text and a handful
of additions, multiplications and divisions on them, so exact rational
arithmetic is the intended meaning of each formula.  Machine errors of
binary floating point are not modelled.

Rational arithmetic inside executable definitions is written with the
`mkRat`-based wrappers `qAdd`, `qMul`, `qDiv`, `qFloor`, `qRound` so that
the kernel can evaluate concrete runs (`Rat.add` and friends are
irreducible); the lemmas `qAdd_eq`, `qMul_eq`, `qDiv_eq`, `qRound_eq`
prove that each wrapper is exactly the standard `ℚ` operation.
-/

/-! ## Python string and number primitives -/

/-- ASCII whitespace as stripped by Python `str.strip()` (the characters
that actually occur in the log lines). -/
def isWS (c : Char) : Bool := c == ' ' || c == '\t' || c == '\n' || c == '\r'

/-- Python `str.strip()`. -/
def pyStrip (s : String) : String :=
  ⟨((s.data.dropWhile isWS).reverse.dropWhile isWS).reverse⟩

/-- Does the second character list start with the first? -/
def startsWithL : List Char → List Char → Bool
  | [], _ => true
  | _ :: _, [] => false
  | a :: as, b :: bs => a == b && startsWithL as bs

/-- If `pre` is a prefix of `cs`, return the remainder. -/
def dropPrefixL : List Char → List Char → Option (List Char)
  | [], s => some s
  | _ :: _, [] => none
  | a :: as, b :: bs => if a == b then dropPrefixL as bs else none

/-- Substring containment on character lists. -/
def containsL (t : List Char) : List Char → Bool
  | [] => t.isEmpty
  | c :: cs => startsWithL t (c :: cs) || containsL t cs

/-- Python `t in s` (substring containment). -/
def pyIn (t s : String) : Bool := containsL t.data s.data

/-- Value of a digit string. -/
def digitsToNat (s : List Char) : Nat := s.foldl (fun n c => n * 10 + (c.toNat - 48)) 0

/-- Python `float()` on a plain decimal numeral (optional sign, digits,
at most one dot).  Returns `none` where `float()` raises `ValueError`
(e.g. on `"N/A"` or `""`).  Exponent forms are not produced by any value
this repository writes to its tables, so they are not modelled here. -/
def parseDecCore (cs : List Char) : Option ℚ :=
  let intPart := cs.takeWhile Char.isDigit
  let rest := cs.dropWhile Char.isDigit
  match rest with
  | [] => if intPart.isEmpty then none else some (mkRat (digitsToNat intPart) 1)
  | '.' :: rest2 =>
      let frac := rest2.takeWhile Char.isDigit
      let rest3 := rest2.dropWhile Char.isDigit
      if rest3.isEmpty && (!intPart.isEmpty || !frac.isEmpty) then
        some (mkRat (digitsToNat (intPart ++ frac)) (10 ^ frac.length))
      else none
  | _ => none

/-- Python `float(s)` for decimal strings (strips whitespace first). -/
def parseDecimal (s : String) : Option ℚ :=
  match (pyStrip s).data with
  | '-' :: cs => (parseDecCore cs).map Neg.neg
  | '+' :: cs => parseDecCore cs
  | cs => parseDecCore cs

/-! ### Kernel-computable rational arithmetic -/

/-- Kernel-computable addition on `ℚ`; equals `a + b` (`qAdd_eq`). -/
def qAdd (a b : ℚ) : ℚ := mkRat (a.num * b.den + b.num * a.den) (a.den * b.den)

/-- Kernel-computable multiplication on `ℚ`; equals `a * b` (`qMul_eq`). -/
def qMul (a b : ℚ) : ℚ := mkRat (a.num * b.num) (a.den * b.den)

/-- Kernel-computable inverse on `ℚ`; equals `b⁻¹` (`qInv_eq`). -/
def qInv (b : ℚ) : ℚ :=
  match b.num with
  | Int.ofNat n => mkRat b.den n
  | Int.negSucc n => mkRat (-(b.den : ℤ)) (n + 1)

/-- Kernel-computable division on `ℚ`; equals `a / b` (`qDiv_eq`),
with division by zero giving `0` as in Mathlib. -/
def qDiv (a b : ℚ) : ℚ := qMul a (qInv b)

/-- Kernel-computable floor on `ℚ`; equals `⌊q⌋` (`qFloor_eq`). -/
def qFloor (q : ℚ) : ℤ := q.num / (q.den : ℤ)

/-- Kernel-computable round-half-up on `ℚ`; equals `round q` (`qRound_eq`). -/
def qRound (q : ℚ) : ℤ := qFloor (qAdd q (mkRat 1 2))

theorem qAdd_eq (a b : ℚ) : qAdd a b = a + b := by
  rw [qAdd, Rat.mkRat_eq_div]
  have ha : ((a.den : ℤ) : ℚ) ≠ 0 := by
    exact_mod_cast (Nat.cast_ne_zero (R := ℚ)).mpr a.den_ne_zero
  have hb : ((b.den : ℤ) : ℚ) ≠ 0 := by
    exact_mod_cast (Nat.cast_ne_zero (R := ℚ)).mpr b.den_ne_zero
  conv_rhs => rw [← Rat.num_div_den a, ← Rat.num_div_den b]
  push_cast
  field_simp

theorem qMul_eq (a b : ℚ) : qMul a b = a * b := by
  rw [qMul, Rat.mkRat_eq_div]
  have ha : ((a.den : ℤ) : ℚ) ≠ 0 := by
    exact_mod_cast (Nat.cast_ne_zero (R := ℚ)).mpr a.den_ne_zero
  have hb : ((b.den : ℤ) : ℚ) ≠ 0 := by
    exact_mod_cast (Nat.cast_ne_zero (R := ℚ)).mpr b.den_ne_zero
  conv_rhs => rw [← Rat.num_div_den a, ← Rat.num_div_den b]
  push_cast
  field_simp

theorem qInv_eq (b : ℚ) : qInv b = b⁻¹ := by
  rw [Rat.inv_def', Rat.divInt_eq_div]
  cases hbn : b.num with
  | ofNat n =>
      simp only [qInv, hbn]
      rw [Rat.mkRat_eq_div]
      push_cast
      rfl
  | negSucc n =>
      simp only [qInv, hbn]
      rw [Rat.mkRat_eq_div, Int.negSucc_eq]
      push_cast
      rw [div_neg, neg_div]

theorem qDiv_eq (a b : ℚ) : qDiv a b = a / b := by
  rw [qDiv, qMul_eq, qInv_eq, div_eq_mul_inv]

theorem qFloor_eq (q : ℚ) : qFloor q = ⌊q⌋ := by
  rw [qFloor, Rat.floor_def]

theorem qRound_eq (q : ℚ) : qRound q = round q := by
  rw [qRound, round_eq, qFloor_eq, qAdd_eq]
  norm_num [Rat.mkRat_eq_div]



/-- Python `f"{x:.2f}"` on an exact rational: the value rounded to two
decimal places and rendered with exactly two fractional digits.
(Binary-float tie behaviour is not modelled; no value in the claims is a
rounding tie.) -/
def fmt2 (q : ℚ) : String :=
  let n : ℤ := qRound (qMul q 100)
  if n < 0 then
    "-" ++ toString ((-n) / 100) ++ "." ++
      (if (-n) % 100 < 10 then "0" else "") ++ toString ((-n) % 100)
  else
    toString (n / 100) ++ "." ++
      (if n % 100 < 10 then "0" else "") ++ toString (n % 100)

/-- Fractional digits of `q ∈ [0,1)` with a fuel bound, dropping the
trailing zeros as Python float `repr` does (all values stringified by the
scripts are short decimals, far below the fuel bound). -/
def fracDigits : Nat → ℚ → String
  | 0, _ => ""
  | fuel + 1, q =>
      if q == 0 then ""
      else
        let d : ℤ := qFloor (qMul q 10)
        toString d ++ fracDigits fuel (qAdd (qMul q 10) (mkRat (-d) 1))

/-- Python `str(float)` for the short decimal values these scripts write:
integral values render as `"80.0"`, others with their decimal digits. -/
def pyStrRat (q : ℚ) : String :=
  let sgn := if q < 0 then "-" else ""
  let a := if q < 0 then qMul q (-1) else q
  let ip : ℤ := qFloor a
  let fp := qAdd a (mkRat (-ip) 1)
  sgn ++ toString ip ++ "." ++ (if fp == 0 then "0" else fracDigits 30 fp)

/-! ## Cells: values held in CSV rows and metric dicts

A Python value flowing into a CSV row is either a float (`num`) or a
string (`str`); identity fields are always strings.  Truthiness and
`float()` conversion follow Python semantics. -/

inductive Cell where
  | num (q : ℚ)
  | str (s : String)
deriving Repr, DecidableEq

/-- Python truthiness of a cell value: `0.0` and `""` are falsy. -/
def Cell.truthy : Cell → Bool
  | .num q => q != 0
  | .str s => s != ""

/-- Python `float()` on a cell value; `none` models a raised `ValueError`. -/
def Cell.toFloat : Cell → Option ℚ
  | .num q => some q
  | .str s => parseDecimal s

/-- Python `str()` on a cell value, as `csv` writes it. -/
def Cell.toStr : Cell → String
  | .num q => pyStrRat q
  | .str s => s

/-- Python `x or default` for an optional string argument
(`args.checkpoint or 'N/A'`): `None` and `""` fall back. -/
def pyOrStr (x : Option String) (dflt : String) : String :=
  match x with
  | none => dflt
  | some s => if s == "" then dflt else s

/-- Python truthiness of an optional float argument (`if args.eval_time:`):
`None` and `0.0` are falsy. -/
def pyTruthy (x : Option ℚ) : Bool :=
  match x with
  | none => false
  | some q => q != 0

/-! ## MetricExtractor: `parse_log_file` (log_results.py)

`parse_log_file` scans the stripped lines of `log.txt`; any line containing
`"=> result"` as a substring arms extraction (and is itself skipped by
`continue`); on armed lines each metric regex `\* <name>: ([\d.]+)%` is
searched and every match overwrites the metric's dict entry. -/

/-- The metric dict built by `parse_log_file`.  Fields mirror the five
metric names the script recognizes; `main` may later store the string
`'N/A'` under `accuracy`, hence `Cell` values. -/
structure Metrics where
  accuracy : Option Cell := none
  precision : Option Cell := none
  «recall» : Option Cell := none
  f1_score : Option Cell := none
  balanced_accuracy : Option Cell := none
deriving Repr, DecidableEq

/-- Python `if not metrics:` — the dict is empty iff no key was ever set. -/
def Metrics.isEmptyDict (m : Metrics) : Bool :=
  m.accuracy == none && m.precision == none && m.«recall» == none &&
    m.f1_score == none && m.balanced_accuracy == none

/-- `re.search(r"\* <name>: ([\d.]+)%", line)` followed by `float(group(1))`:
scan positions left to right; at each position require the literal pattern,
then a maximal nonempty run of `[\d.]` followed immediately by `'%'`
(backtracking into the run cannot succeed, since the run's last character
is not `'%'`).  `float` on a multi-dot group (a `ValueError` in Python)
is modelled as no value. -/
def searchMetric (pat : List Char) : List Char → Option ℚ
  | [] => none
  | c :: cs =>
      match dropPrefixL pat (c :: cs) with
      | some rest =>
          let run := rest.takeWhile (fun d => d.isDigit || d == '.')
          let rest2 := rest.dropWhile (fun d => d.isDigit || d == '.')
          if run.isEmpty then searchMetric pat cs
          else
            match rest2 with
            | '%' :: _ => parseDecCore run
            | _ => searchMetric pat cs
      | none => searchMetric pat cs

/-- One armed line of `parse_log_file`: try the accuracy pattern, then the
four optional metric patterns, each overwriting its dict entry on a match. -/
def scanLine (m : Metrics) (t : String) : Metrics :=
  let m1 := match searchMetric "* accuracy: ".data t.data with
    | some v => { m with accuracy := some (.num v) }
    | none => m
  let m2 := match searchMetric "* precision: ".data t.data with
    | some v => { m1 with precision := some (.num v) }
    | none => m1
  let m3 := match searchMetric "* recall: ".data t.data with
    | some v => { m2 with «recall» := some (.num v) }
    | none => m2
  let m4 := match searchMetric "* f1_score: ".data t.data with
    | some v => { m3 with f1_score := some (.num v) }
    | none => m3
  match searchMetric "* balanced_accuracy: ".data t.data with
  | some v => { m4 with balanced_accuracy := some (.num v) }
  | none => m4

/-- The scanning loop of `parse_log_file` over the remaining lines, with the
`found_result` flag. -/
def parseGo (found : Bool) (m : Metrics) : List String → Metrics
  | [] => m
  | l :: ls =>
      let t := pyStrip l
      if pyIn "=> result" t then parseGo true m ls
      else if found then parseGo found (scanLine m t) ls
      else parseGo found m ls

/-- `parse_log_file` on the lines of an existing log file. -/
def parse_log_file (lines : List String) : Metrics := parseGo false {} lines

/-- `parse_log_file` including the missing-file guard: a missing file yields
an empty metric dict after a warning. -/
def parse_log_full (file : Option (List String)) : Metrics :=
  match file with
  | none => {}
  | some lines => parse_log_file lines

/-! ## MetricExtractor: `parse_single_result` per log file
(aggregate_kaggle_results.py)

Arming requires the stripped line to equal `end_signal` exactly; the marker
line itself is scanned too; the first accuracy match `break`s. -/

/-- The aggregator's accuracy regex `\* accuracy: ([\.\deE+-]+)%` with its
wider character class.  A group that `float()` cannot parse (impossible for
the values the evaluation logs print) is modelled as no match. -/
def searchMetricAgg : List Char → Option ℚ
  | [] => none
  | c :: cs =>
      match dropPrefixL "* accuracy: ".data (c :: cs) with
      | some rest =>
          let cls := fun d : Char =>
            d.isDigit || d == '.' || d == 'e' || d == 'E' || d == '+' || d == '-'
          let run := rest.takeWhile cls
          let rest2 := rest.dropWhile cls
          if run.isEmpty then searchMetricAgg cs
          else
            match rest2 with
            | '%' :: _ =>
                match parseDecimal ⟨run⟩ with
                | some v => some v
                | none => searchMetricAgg cs
            | _ => searchMetricAgg cs
      | none => searchMetricAgg cs

/-- Scanning loop of `parse_single_result` over one file's lines with the
`good_to_go` flag; returns the first armed accuracy (the loop `break`s). -/
def aggGo (g : Bool) : List String → Option ℚ
  | [] => none
  | l :: ls =>
      let t := pyStrip l
      let g2 := g || (t == "=> result")
      if g2 then
        match searchMetricAgg t.data with
        | some a => some a
        | none => aggGo g2 ls
      else aggGo g2 ls

/-- Accuracy extracted from a single `log.txt` by `parse_single_result`. -/
def parse_single_file (lines : List String) : Option ℚ := aggGo false lines

/-! ## ResultLedger: `log_few_shot_result` (log_results.py)

The few-shot ledger is a CSV file opened in append mode; the header is
written only when the file does not yet exist.  The file is modelled as the
list of its delimited rows (each a list of field strings), `none` when it
does not exist. -/

/-- Arguments of `log_results.py` relevant to an ingest call
(`datetime.now()` is passed in as the pre-rendered `now` string). -/
structure FSArgs where
  model : String
  checkpoint : Option String
  dataset : String
  shot : Int
  seed : Int
  eval_time : Option ℚ
  notes : String
  now : String
deriving Repr, DecidableEq

/-- Python `l.insert(-2, x)` for lists of length ≥ 2: insert before the
second-to-last element. -/
def pyInsertMinus2 (x : α) (l : List α) : List α :=
  l.take (l.length - 2) ++ [x] ++ l.drop (l.length - 2)

/-- The base column list of the few-shot CSV. -/
def fsBaseFieldnames : List String :=
  ["model", "checkpoint_name", "dataset", "shot", "seed",
   "accuracy", "eval_time", "timestamp", "notes"]

/-- `fieldnames` as built per call: each optional metric present in this
call's dict is inserted before `timestamp`. -/
def fsFieldnames (m : Metrics) : List String :=
  let f1 := if m.precision.isSome then pyInsertMinus2 "precision" fsBaseFieldnames
            else fsBaseFieldnames
  let f2 := if m.«recall».isSome then pyInsertMinus2 "recall" f1 else f1
  let f3 := if m.f1_score.isSome then pyInsertMinus2 "f1_score" f2 else f2
  if m.balanced_accuracy.isSome then pyInsertMinus2 "balanced_accuracy" f3 else f3

/-- The value the row dict holds under a given fieldname, rendered by the
csv writer via `str()` (`DictWriter` writes `''` for a missing key). -/
def fsRowField (a : FSArgs) (m : Metrics) (name : String) : String :=
  if name == "model" then a.model
  else if name == "checkpoint_name" then pyOrStr a.checkpoint "N/A"
  else if name == "dataset" then a.dataset
  else if name == "shot" then toString a.shot
  else if name == "seed" then toString a.seed
  else if name == "accuracy" then (m.accuracy.getD (.str "N/A")).toStr
  else if name == "eval_time" then
    match a.eval_time with
    | some t => if t != 0 then fmt2 t else "N/A"
    | none => "N/A"
  else if name == "timestamp" then a.now
  else if name == "notes" then a.notes
  else if name == "precision" then (m.precision.getD (.str "")).toStr
  else if name == "recall" then (m.«recall».getD (.str "")).toStr
  else if name == "f1_score" then (m.f1_score.getD (.str "")).toStr
  else if name == "balanced_accuracy" then (m.balanced_accuracy.getD (.str "")).toStr
  else ""

/-- Errors a Python call can raise; the only one these flows hit is
`ValueError` (from `float()` or a bad `:.2f` format argument). -/
inductive PyErr where
  | valueError
deriving Repr, DecidableEq

/-- The final success `print` of both logging functions formats
`metrics.get('accuracy', 'N/A')` with `:.2f`, which raises `ValueError`
when that value is a string such as `'N/A'`. -/
def accPrintErr (acc : Cell) : Option PyErr :=
  match acc with
  | .num _ => none
  | .str _ => some .valueError

/-- `log_few_shot_result`: append the rendered row (writing the header
first iff the file is new), then run the success `print`.  Returns the
resulting file contents and the error, if any, that the call raises after
the file is closed. -/
def log_few_shot_result (file : Option (List (List String))) (a : FSArgs)
    (m : Metrics) : List (List String) × Option PyErr :=
  let fns := fsFieldnames m
  let row := fns.map (fsRowField a m)
  let content :=
    match file with
    | none => [fns, row]
    | some rows => rows ++ [row]
  (content, accPrintErr (m.accuracy.getD (.str "N/A")))

/-- The `main` flow of `log_results.py` for `--task few_shot`: parse the
log (empty dict on a missing file), replace an empty dict by
`{'accuracy': 'N/A'}`, then log. -/
def mainFewShot (logFile : Option (List String))
    (csvFile : Option (List (List String))) (a : FSArgs) :
    List (List String) × Option PyErr :=
  let m0 := parse_log_full logFile
  let m := if m0.isEmptyDict then { accuracy := some (.str "N/A") } else m0
  log_few_shot_result csvFile a m

/-! ## ResultLedger: `log_base2new_result` (log_results.py)

The base2new ledger is read fully, the first row matching
(dataset, shot, seed, model) is updated in place (or a new row appended),
and the whole table is rewritten.  A row loaded from CSV has string
values; values assigned during the call may be floats — hence `Cell`
fields for the mutable columns.  `csv.DictWriter` stringifies every value
on the rewrite. -/

/-- One row of the base2new CSV. -/
structure RowB2N where
  model : String
  checkpoint_name : String
  dataset : String
  shot : String
  seed : String
  base_acc : Cell
  new_acc : Cell
  harmonic_mean : Cell
  eval_time : Cell
  timestamp : String
  notes : String
deriving Repr, DecidableEq

/-- Arguments of a base2new ingest (`--subtask base|new`). -/
structure B2NArgs where
  model : String
  checkpoint : Option String
  dataset : String
  shot : Int
  seed : Int
  subtask : String
  eval_time : Option ℚ
  notes : String
  now : String
deriving Repr, DecidableEq

/-- The row-matching test of `log_base2new_result` (in source order:
dataset, shot, seed, model; `shot`/`seed` are compared against
`str(args.shot)` / `str(args.seed)`). -/
def rowMatches (a : B2NArgs) (r : RowB2N) : Bool :=
  r.dataset == a.dataset && r.shot == toString a.shot &&
    r.seed == toString a.seed && r.model == a.model

/-- The fresh row created when no existing row matches. -/
def newRowB2N (a : B2NArgs) (acc : Cell) : RowB2N :=
  { model := a.model
  , checkpoint_name := pyOrStr a.checkpoint "N/A"
  , dataset := a.dataset
  , shot := toString a.shot
  , seed := toString a.seed
  , base_acc := if a.subtask == "base" then acc else .str ""
  , new_acc := if a.subtask == "new" then acc else .str ""
  , harmonic_mean := .str ""
  , eval_time := if pyTruthy a.eval_time then .str (fmt2 (a.eval_time.getD 0)) else .str "N/A"
  , timestamp := a.now
  , notes := a.notes }

/-- Stage 1 of the in-place update of a matching row: assign the
subtask's accuracy cell. -/
def updateAccB2N (a : B2NArgs) (acc : Cell) (r : RowB2N) : RowB2N :=
  if a.subtask == "base" then { r with base_acc := acc } else { r with new_acc := acc }

/-- Stage 2: recompute the harmonic mean when both cells are truthy
(`float()` errors caught by the `except`, storing `'N/A'`). -/
def updateHarmB2N (r1 : RowB2N) : RowB2N :=
  if r1.base_acc.truthy && r1.new_acc.truthy then
    match r1.base_acc.toFloat, r1.new_acc.toFloat with
    | some b, some n =>
        { r1 with harmonic_mean :=
            Cell.str (fmt2 (if qAdd b n > 0 then qDiv (qMul (qMul 2 b) n) (qAdd b n) else 0)) }
    | _, _ => { r1 with harmonic_mean := .str "N/A" }
  else r1

/-- Stage 3: accumulate `eval_time` when the argument is truthy — where
`float()` on a non-numeric stored value raises an uncaught `ValueError`,
aborting the call before the table is rewritten — and refresh the
timestamp. -/
def updateEvalB2N (a : B2NArgs) (r2 : RowB2N) : Except PyErr RowB2N :=
  if pyTruthy a.eval_time then
    match r2.eval_time.toFloat with
    | none => .error .valueError
    | some cur =>
        .ok { r2 with eval_time := .str (fmt2 (qAdd cur (a.eval_time.getD 0)))
                    , timestamp := a.now }
  else .ok { r2 with timestamp := a.now }

/-- The full in-place update of a matching row, stages in source order. -/
def updateRowB2N (a : B2NArgs) (acc : Cell) (r : RowB2N) : Except PyErr RowB2N :=
  updateEvalB2N a (updateHarmB2N (updateAccB2N a acc r))

/-- Replace the first element satisfying `p` (the Python loop mutates the
matched dict in place). -/
def replaceFirst (p : α → Bool) (f : α → α) : List α → List α
  | [] => []
  | x :: xs => if p x then f x :: xs else x :: replaceFirst p f xs

/-- `csv.DictWriter.writerow` renders every value with `str()`. -/
def stringifyRow (r : RowB2N) : RowB2N :=
  { r with base_acc := .str r.base_acc.toStr
         , new_acc := .str r.new_acc.toStr
         , harmonic_mean := .str r.harmonic_mean.toStr
         , eval_time := .str r.eval_time.toStr }

/-- `log_base2new_result` as a transition on the persisted table: find the
first matching row and update it (an uncaught `ValueError` leaves the file
unchanged, since it is raised before the rewrite), otherwise append a new
row; rewrite stringifies all rows; the success `print` afterwards may
itself raise (after the file is already written). -/
def ingestB2N (rows : List RowB2N) (a : B2NArgs) (acc : Cell) :
    List RowB2N × Option PyErr :=
  match rows.find? (fun r => rowMatches a r) with
  | some r =>
      match updateRowB2N a acc r with
      | .error e => (rows, some e)
      | .ok r2 =>
          ((replaceFirst (fun r3 => rowMatches a r3) (fun _ => r2) rows).map stringifyRow,
            accPrintErr acc)
  | none =>
      ((rows ++ [newRowB2N a acc]).map stringifyRow, accPrintErr acc)

/-- A sequence of base2new ingests starting from an empty (nonexistent)
table; each call's persisted result feeds the next call. -/
def runIngests (ops : List (B2NArgs × Cell)) : List RowB2N :=
  ops.foldl (fun rows op => (ingestB2N rows op.1 op.2).1) []

/-! ## Aggregator: `compute_ci95` and numpy statistics
(aggregate_kaggle_results.py)

`np.mean` and `np.std` (default `ddof=0`, the population standard
deviation) over a list of per-dataset mean accuracies; values are exact
rationals, the square roots live in `ℝ`. -/

/-- Kernel-computable list sum (`List.sum` uses the irreducible `Rat.add`). -/
def qSum (l : List ℚ) : ℚ := l.foldr qAdd 0

theorem qSum_eq (l : List ℚ) : qSum l = l.sum := by
  induction l with
  | nil => rfl
  | cons x xs ih => rw [qSum, List.foldr_cons, qAdd_eq, List.sum_cons, ← qSum, ih]

/-- `np.mean`: sum divided by length. -/
def np_mean (l : List ℚ) : ℚ := qDiv (qSum l) (mkRat l.length 1)

theorem np_mean_eq (l : List ℚ) : np_mean l = l.sum / (l.length : ℚ) := by
  rw [np_mean, qDiv_eq, qSum_eq, Rat.mkRat_eq_div]
  norm_num

/-- `np.var` with `ddof=0`: the mean of the squared deviations from the
mean (the population variance). -/
def np_var (l : List ℚ) : ℚ :=
  np_mean (l.map (fun x => qMul (qAdd x (qMul (np_mean l) (-1))) (qAdd x (qMul (np_mean l) (-1)))))

theorem np_var_eq (l : List ℚ) :
    np_var l = (l.map (fun x => (x - l.sum / l.length) ^ 2)).sum / (l.length : ℚ) := by
  have hmap : l.map (fun x =>
        qMul (qAdd x (qMul (np_mean l) (-1))) (qAdd x (qMul (np_mean l) (-1)))) =
      l.map (fun x => (x - l.sum / l.length) ^ 2) := by
    apply List.map_congr_left
    intro x _
    simp only [qMul_eq, qAdd_eq, np_mean_eq]
    ring
  rw [np_var, hmap, np_mean_eq, List.length_map]

/-- `np.std` with `ddof=0`: the square root of the population variance. -/
noncomputable def np_std (l : List ℚ) : ℝ := Real.sqrt (np_var l : ℚ)

/-- `compute_ci95` (aggregate_kaggle_results.py):
`1.96 * np.std(res) / np.sqrt(len(res))`. -/
noncomputable def compute_ci95 (l : List ℚ) : ℝ :=
  1.96 * np_std l / Real.sqrt (l.length : ℝ)

/-- Modelled from the spec's words, for comparison with `compute_ci95`:
the population standard deviation — the square root of the mean of the
squared deviations from the mean, dividing by `n` (not the
sample-corrected `n - 1`). -/
noncomputable def specPopStdDev (l : List ℚ) : ℝ :=
  Real.sqrt (((l.map (fun x => (x - l.sum / l.length) ^ 2)).sum / (l.length : ℚ) : ℚ))

/-! ## PivotBuilder and cross-dataset summary (aggregate_kaggle_results.py)

The aggregation loop of `main` is abstracted over the per-directory
result: `res d k` is the mean accuracy `parse_single_result` yields for
dataset `d` at shot count `k` (`none` when the directory is missing or
holds no accuracies).  `detailed_results` and `results_by_shots` are
built exactly as the loop does, and the pivot is built from the
`defaultdict(dict)` model `PD`. -/

/-- The hard-coded dataset list of `main`. -/
def datasets : List String :=
  ["btmri", "busi", "chmnist", "covid", "ctkidney", "dermamnist",
   "kneexray", "kvasir", "lungcolon", "octmnist", "retina"]

/-- The hard-coded shot list of `main`. -/
def shots_list : List Int := [1, 2, 4, 8, 16]

/-- `detailed_results`: one record per (dataset, shot) pair with a parsed
mean accuracy, in dataset-major, shot-minor loop order. -/
def detailed_results (res : String → Int → Option ℚ) : List (String × Int × ℚ) :=
  datasets.flatMap (fun d => shots_list.filterMap (fun k => (res d k).map (fun a => (d, k, a))))

/-- `results_by_shots[k]`: the per-dataset mean accuracies appended for
shot `k`, in dataset order (one per dataset that has a record at `k`). -/
def results_by_shots (res : String → Int → Option ℚ) (k : Int) : List ℚ :=
  datasets.filterMap (fun d => res d k)

/-- The `pivot_data = defaultdict(dict)` structure: the inserted dataset
keys and the cell lookup. -/
structure PD where
  keys : List String
  look : String → Int → Option ℚ

/-- `pivot_data[d][k] = a`. -/
def PD.insert (p : PD) (d : String) (k : Int) (a : ℚ) : PD :=
  { keys := if p.keys.contains d then p.keys else p.keys ++ [d]
  , look := fun d2 k2 => if d2 == d && k2 == k then some a else p.look d2 k2 }

/-- `pivot_data` built by the loop over `detailed_results`. -/
def pivot_data (res : String → Int → Option ℚ) : PD :=
  (detailed_results res).foldl (fun p r => p.insert r.1 r.2.1 r.2.2) ⟨[], fun _ _ => none⟩

/-- The pivot header row: `['Dataset'] + [f'{k}-shot' for k in shots_list]`. -/
def pivotHeader : List String :=
  "Dataset" :: shots_list.map (fun k => toString k ++ "-shot")

/-- The data rows: one per dataset present in `pivot_data`, each cell
`f"{acc:.2f}"` or the sentinel `"N/A"`. -/
def pivotBody (res : String → Int → Option ℚ) : List (List String) :=
  (datasets.filter (fun d => (pivot_data res).keys.contains d)).map (fun d =>
    d :: shots_list.map (fun k =>
      match (pivot_data res).look d k with
      | some a => fmt2 a
      | none => "N/A"))

/-- The `AVERAGE` marginal row: per shot the mean of `results_by_shots[k]`
when nonempty, else the sentinel. -/
def summaryRow (res : String → Int → Option ℚ) : List String :=
  "AVERAGE" :: shots_list.map (fun k =>
    if !(results_by_shots res k).isEmpty then fmt2 (np_mean (results_by_shots res k))
    else "N/A")

/-- The full pivot table written to `pivot_table.csv`. -/
def pivot_table (res : String → Int → Option ℚ) : List (List String) :=
  pivotHeader :: (pivotBody res ++ [summaryRow res])

/-! ## Extractor characterizations -/

/-- The stripped lines `parse_log_file` actually scans for metrics: those
after the first marker-containing line, excluding every marker-containing
line itself (the `continue`). -/
def scannedFrom (found : Bool) : List String → List String
  | [] => []
  | l :: ls =>
      let t := pyStrip l
      if pyIn "=> result" t then scannedFrom true ls
      else if found then t :: scannedFrom found ls
      else scannedFrom found ls

/-- The scanned lines of a whole log. -/
def scannedLines (lines : List String) : List String := scannedFrom false lines

/-- The stripped lines `parse_single_result` scans: the first exact marker
line and everything after it. -/
def armedAgg : List String → List String
  | [] => []
  | l :: ls =>
      let t := pyStrip l
      if t == "=> result" then t :: ls.map pyStrip else armedAgg ls

theorem scanLine_accuracy (m : Metrics) (t : String) :
    (scanLine m t).accuracy =
      match searchMetric "* accuracy: ".data t.data with
      | some v => some (.num v)
      | none => m.accuracy := by
  cases hA : searchMetric "* accuracy: ".data t.data <;>
    cases hP : searchMetric "* precision: ".data t.data <;>
    cases hR : searchMetric "* recall: ".data t.data <;>
    cases hF : searchMetric "* f1_score: ".data t.data <;>
    cases hB : searchMetric "* balanced_accuracy: ".data t.data <;>
    simp [scanLine, hA, hP, hR, hF, hB]

theorem getLast?_cons (a : α) (l : List α) :
    (a :: l).getLast? = some (l.getLast?.getD a) := by
  induction l generalizing a with
  | nil => rfl
  | cons b l ih =>
      rw [List.getLast?_cons_cons, ih b]
      cases hl : l.getLast? <;> simp [hl]

theorem parseGo_accuracy (lines : List String) : ∀ (found : Bool) (m : Metrics),
    (parseGo found m lines).accuracy =
      ((((scannedFrom found lines).filterMap
          (fun t => searchMetric "* accuracy: ".data t.data)).getLast?).map Cell.num).or
        m.accuracy := by
  induction lines with
  | nil => intro found m; simp [parseGo, scannedFrom]
  | cons l ls ih =>
      intro found m
      by_cases hmark : pyIn "=> result" (pyStrip l) = true
      · simp only [parseGo, scannedFrom, hmark, if_true]
        exact ih true m
      · simp only [parseGo, scannedFrom, hmark, if_false, Bool.false_eq_true]
        cases found with
        | false => simpa using ih false m
        | true =>
            simp only [if_true]
            rw [ih true (scanLine m (pyStrip l)), scanLine_accuracy]
            cases hA : searchMetric "* accuracy: ".data (pyStrip l).data with
            | none => simp [List.filterMap_cons, hA]
            | some v =>
                simp only [List.filterMap_cons, hA, getLast?_cons, Option.map_some]
                cases hrest : ((scannedFrom true ls).filterMap
                    (fun t => searchMetric "* accuracy: ".data t.data)).getLast? <;>
                  simp [hrest]

theorem aggGo_true (ls : List String) :
    aggGo true ls = ((ls.map pyStrip).filterMap (fun t => searchMetricAgg t.data)).head? := by
  induction ls with
  | nil => rfl
  | cons l ls ih =>
      simp only [aggGo, Bool.true_or, if_true, List.map_cons, List.filterMap_cons]
      cases h : searchMetricAgg (pyStrip l).data <;> simp [h, ih]

theorem parse_single_file_first (lines : List String) :
    parse_single_file lines =
      ((armedAgg lines).filterMap (fun t => searchMetricAgg t.data)).head? := by
  rw [parse_single_file]
  induction lines with
  | nil => rfl
  | cons l ls ih =>
      by_cases hmark : (pyStrip l == "=> result") = true
      · simp only [aggGo, armedAgg, hmark, Bool.false_or, if_true, List.filterMap_cons]
        cases h : searchMetricAgg (pyStrip l).data <;> simp [h, aggGo_true]
      · simp only [aggGo, armedAgg, hmark, Bool.false_or, if_false, Bool.false_eq_true]
        exact ih

/-! ## Claim C1 -/

/-- C1, counterexample: after the marker, `parse_log_file` keeps the LAST
`* accuracy` match (each match overwrites the dict entry; the loop never
breaks), so a log with `10%` then `20%` yields `20.0`, not the first
match `10.0` that the claim requires. -/
theorem C1_counterexample :
    (parse_log_file ["=> result", "* accuracy: 10%", "* accuracy: 20%"]).accuracy =
      some (Cell.num 20) ∧ some (Cell.num 20) ≠ some (Cell.num 10) := by
  decide

/-- C1 (amended): `parse_log_file` returns as `accuracy` the LAST numeric
match on its scanned lines (later matches overwrite earlier ones), while
the aggregator's `parse_single_result` is the one that stops at the first
match within a log file. -/
theorem C1_extract_accuracy_last_not_first :
    (∀ lines : List String,
      (parse_log_file lines).accuracy =
        (((scannedLines lines).filterMap
            (fun t => searchMetric "* accuracy: ".data t.data)).getLast?).map Cell.num) ∧
    (∀ lines : List String,
      parse_single_file lines =
        ((armedAgg lines).filterMap (fun t => searchMetricAgg t.data)).head?) := by
  constructor
  · intro lines
    rw [parse_log_file, parseGo_accuracy, scannedLines]
    simp
  · exact parse_single_file_first

/-! ## Claim C6 -/

theorem parseGo_of_no_marker (lines : List String) (m : Metrics)
    (h : ∀ l ∈ lines, pyIn "=> result" (pyStrip l) = false) :
    parseGo false m lines = m := by
  induction lines with
  | nil => rfl
  | cons l ls ih =>
      have hl := h l (List.mem_cons_self l ls)
      simp only [parseGo, hl, Bool.false_eq_true, if_false]
      exact ih (fun x hx => h x (List.mem_cons_of_mem l hx))

theorem aggGo_of_no_marker (lines : List String)
    (h : ∀ l ∈ lines, (pyStrip l == "=> result") = false) :
    aggGo false lines = none := by
  induction lines with
  | nil => rfl
  | cons l ls ih =>
      have hl := h l (List.mem_cons_self l ls)
      simp only [aggGo, hl, Bool.false_or, Bool.false_eq_true, if_false]
      exact ih (fun x hx => h x (List.mem_cons_of_mem l hx))

/-- C6, counterexample: `parse_log_file` tests `"=> result" in line` — a
SUBSTRING test, not an exact match.  A log whose lines never equal the
marker still arms extraction (here via `"xx => result"`), so the result is
not the empty metric set the claim requires. -/
theorem C6_counterexample :
    (∀ l ∈ ["xx => result", "* accuracy: 50%"], pyStrip l ≠ "=> result") ∧
    parse_log_file ["xx => result", "* accuracy: 50%"] ≠ ({} : Metrics) := by
  decide

/-- C6 (amended): `parse_log_file` arms on any stripped line CONTAINING
`"=> result"` as a substring (such lines are themselves skipped), and with
no marker-containing line it returns the empty metric set; exact-match
arming holds only for the aggregator's `parse_single_result`. -/
theorem C6_marker_substring_arming :
    (∀ lines : List String, (∀ l ∈ lines, pyIn "=> result" (pyStrip l) = false) →
        parse_log_file lines = ({} : Metrics)) ∧
    (∀ lines : List String, (∀ l ∈ lines, (pyStrip l == "=> result") = false) →
        parse_single_file lines = none) ∧
    (parse_log_file ["xx => result", "* accuracy: 50%"]).accuracy = some (Cell.num 50) := by
  refine ⟨fun lines h => parseGo_of_no_marker lines {} h,
          fun lines h => aggGo_of_no_marker lines h, ?_⟩
  decide

/-- C6 witness: the amended theorem applied to the one-line log `["a"]`. -/
theorem C6_witness :
    parse_log_file ["a"] = ({} : Metrics) ∧ parse_single_file ["a"] = none :=
  ⟨C6_marker_substring_arming.1 ["a"] (by decide),
   C6_marker_substring_arming.2.1 ["a"] (by decide)⟩

/-! ## Claim C2 -/

/-- Concrete ingest arguments used by the C2 scenario. -/
def fsArgsX : FSArgs :=
  { model := "BiomedCoOp_BiomedCLIP", checkpoint := none, dataset := "busi",
    shot := 1, seed := 2, eval_time := some 5, notes := "",
    now := "2025-01-01 00:00:00" }

/-- C2: an ingest whose log path does not exist parses an empty metric
dict, records `accuracy` as the `'N/A'` sentinel and appends the row — but
the call then RAISES `ValueError`: the success `print` formats the string
`'N/A'` with `:.2f`.  The spec's "never fails" is the evident intent of
the `'N/A'` fallback; the format slip contradicts it. -/
theorem C2_missing_log_ingest_raises :
    mainFewShot none (some [fsBaseFieldnames]) fsArgsX =
      ([fsBaseFieldnames,
        ["BiomedCoOp_BiomedCLIP", "N/A", "busi", "1", "2", "N/A", "5.00",
         "2025-01-01 00:00:00", ""]], some PyErr.valueError) := by
  decide

/-! ## Claims C3, C4, C10: two-phase row merging -/

/-- Base-phase ingest arguments of the running example (no eval time). -/
def b2nBase : B2NArgs :=
  { model := "BiomedCoOp_BiomedCLIP", checkpoint := some "ckpt", dataset := "btmri",
    shot := 16, seed := 1, subtask := "base", eval_time := none, notes := "", now := "t1" }

/-- New-phase ingest arguments of the running example. -/
def b2nNew : B2NArgs := { b2nBase with subtask := "new", now := "t2" }

/-- Base-phase arguments with `eval_time = 120`. -/
def b2nBaseT : B2NArgs := { b2nBase with eval_time := some 120 }

/-- New-phase arguments with `eval_time = 30`. -/
def b2nNewT : B2NArgs := { b2nNew with eval_time := some 30 }

/-- C3, counterexample: ingesting base accuracy `80.0` then new accuracy
`0.0` leaves BOTH accuracy fields populated, yet `harmonic_mean` stays
absent (`''`): the guard `if matching_row.get('base_acc') and
matching_row.get('new_acc')` tests Python truthiness, and the freshly
assigned float `0.0` is falsy.  The claim requires `harmonic_mean` to be
present and equal `2·80·0/(80+0) = 0`, i.e. `"0.00"`. -/
theorem C3_counterexample :
    (runIngests [(b2nBase, Cell.num 80), (b2nNew, Cell.num 0)]).map
        (fun r => (r.base_acc, r.new_acc, r.harmonic_mean)) =
      [(Cell.str "80.0", Cell.str "0.0", Cell.str "")] ∧
    Cell.str "" ≠ Cell.str "0.00" := by
  decide

/-- C3 (amended): on a merge, the harmonic mean is recomputed only when
both accuracy cells are TRUTHY (nonempty strings / nonzero fresh floats);
whenever both convert to numbers `b`, `n` with `b + n > 0` it is stored as
`f"{2·b·n/(b+n):.2f}"`.  In particular the claim's own example holds:
base `80.0` then new `60.0` yields one record with `base_acc = 80.0`,
`new_acc = 60.0`, `harmonic_mean = "68.57" = f"{2·80·60/140:.2f}"`. -/
theorem C3_harmonic_mean :
    (runIngests [(b2nBase, Cell.num 80), (b2nNew, Cell.num 60)] =
      [{ model := "BiomedCoOp_BiomedCLIP", checkpoint_name := "ckpt", dataset := "btmri",
         shot := "16", seed := "1", base_acc := Cell.str "80.0",
         new_acc := Cell.str "60.0", harmonic_mean := Cell.str "68.57",
         eval_time := Cell.str "N/A", timestamp := "t2", notes := "" }]) ∧
    fmt2 (2 * 80 * 60 / (80 + 60) : ℚ) = "68.57" ∧
    (∀ (r1 : RowB2N) (b n : ℚ),
      r1.base_acc.truthy = true → r1.new_acc.truthy = true →
      r1.base_acc.toFloat = some b → r1.new_acc.toFloat = some n → b + n > 0 →
      (updateHarmB2N r1).harmonic_mean = Cell.str (fmt2 (2 * b * n / (b + n)))) := by
  refine ⟨by decide, ?_, ?_⟩
  · rw [show (2 * 80 * 60 / (80 + 60) : ℚ) = (mkRat 480 7 : ℚ) by
      rw [Rat.mkRat_eq_div]; norm_num]
    decide
  · intro r1 b n ht1 ht2 hf1 hf2 hpos
    have hq : (if qAdd b n > 0 then qDiv (qMul (qMul 2 b) n) (qAdd b n) else 0) =
        2 * b * n / (b + n) := by
      rw [qAdd_eq, if_pos hpos, qDiv_eq, qMul_eq, qMul_eq]
    unfold updateHarmB2N
    rw [ht1, ht2, hf1, hf2]
    simp [hq]

/-- The persisted ledger row after the first (base, 80.0) ingest. -/
def rowP : RowB2N :=
  { model := "BiomedCoOp_BiomedCLIP", checkpoint_name := "ckpt", dataset := "btmri",
    shot := "16", seed := "1", base_acc := Cell.str "80.0", new_acc := Cell.str "",
    harmonic_mean := Cell.str "", eval_time := Cell.str "N/A", timestamp := "t1",
    notes := "" }

/-- C3 witness: the merge law of the amended theorem applied at the
concrete merge of new accuracy `60.0` into the persisted base row. -/
theorem C3_witness :
    (updateHarmB2N { rowP with new_acc := Cell.num 60 }).harmonic_mean =
      Cell.str (fmt2 (2 * 80 * 60 / (80 + 60))) :=
  C3_harmonic_mean.2.2 { rowP with new_acc := Cell.num 60 } 80 60
    (by decide) (by decide) (by decide) (by decide) (by norm_num)

/-- C4, counterexample: the first ingest carried no eval time, so the
stored value is the sentinel `'N/A'`; a second ingest that does supply
`eval_time = 30` then executes `float(matching_row.get('eval_time', 0))`
on `'N/A'`, which RAISES an uncaught `ValueError` (the `.get` default `0`
never applies — the key is always present) and leaves the table unchanged.
The claim requires the missing prior value to be treated as `0` with the
sum accumulating to `30`. -/
theorem C4_counterexample :
    (ingestB2N (runIngests [(b2nBase, Cell.num 80)]) b2nNewT (Cell.num 60)).2 =
        some PyErr.valueError ∧
    (ingestB2N (runIngests [(b2nBase, Cell.num 80)]) b2nNewT (Cell.num 60)).1 =
        runIngests [(b2nBase, Cell.num 80)] ∧
    (runIngests [(b2nBase, Cell.num 80)]).map (fun r => r.eval_time) =
        [Cell.str "N/A"] := by
  decide

/-- C4 (amended): a merge with a truthy supplied `eval_time` adds it to
the prior stored value whenever that prior PARSES as a number (so
`120` then `30` accumulates to `"150.00"`); when the prior stored value is
the non-numeric sentinel `'N/A'` (an absent eval time), the merge raises
`ValueError` instead of treating it as `0`. -/
theorem C4_eval_time_accumulation :
    ((runIngests [(b2nBaseT, Cell.num 80), (b2nNewT, Cell.num 60)]).map
        (fun r => r.eval_time) = [Cell.str "150.00"]) ∧
    fmt2 (120 + 30 : ℚ) = "150.00" ∧
    (∀ (a : B2NArgs) (r2 : RowB2N) (t cur : ℚ), a.eval_time = some t → t ≠ 0 →
      r2.eval_time.toFloat = some cur →
      updateEvalB2N a r2 = .ok { r2 with eval_time := Cell.str (fmt2 (cur + t)),
                                         timestamp := a.now }) ∧
    (∀ (a : B2NArgs) (r2 : RowB2N), pyTruthy a.eval_time = true →
      r2.eval_time.toFloat = none → updateEvalB2N a r2 = .error PyErr.valueError) := by
  refine ⟨by decide, ?_, ?_, ?_⟩
  · rw [show (120 + 30 : ℚ) = (150 : ℚ) by norm_num]
    decide
  · intro a r2 t cur ht ht0 hcur
    have htr : pyTruthy a.eval_time = true := by
      rw [ht]; simpa [pyTruthy] using ht0
    unfold updateEvalB2N
    rw [htr, if_pos rfl, hcur]
    simp [ht, qAdd_eq]
  · intro a r2 htr hnone
    unfold updateEvalB2N
    rw [htr, if_pos rfl, hnone]

/-- The persisted row after a base ingest with `eval_time = 120`. -/
def rowPT : RowB2N := { rowP with eval_time := Cell.str "120.00" }

/-- C4 witness: the accumulation law applied at the concrete merge of
`eval_time = 30` into the row holding `"120.00"`. -/
theorem C4_witness :
    updateEvalB2N b2nNewT rowPT =
      .ok { rowPT with eval_time := Cell.str (fmt2 ((120 : ℚ) + 30)),
                       timestamp := "t2" } :=
  C4_eval_time_accumulation.2.2.1 b2nNewT rowPT 30 120 rfl (by norm_num) (by decide)

theorem updateAccB2N_eval_time (a : B2NArgs) (acc : Cell) (r : RowB2N) :
    (updateAccB2N a acc r).eval_time = r.eval_time := by
  unfold updateAccB2N
  split <;> rfl

theorem updateHarmB2N_eval_time (r1 : RowB2N) :
    (updateHarmB2N r1).eval_time = r1.eval_time := by
  unfold updateHarmB2N
  split
  · split <;> rfl
  · rfl

/-- C10: a two-phase ingest whose `eval_time` argument is `None` or `0.0`
is treated as missing — a freshly created row records the sentinel `'N/A'`
(never `'0.00'`), and a merge leaves the stored accumulated value exactly
as it was (no `+ 0` pass, no reformatting). -/
theorem C10_falsy_eval_time_missing (a : B2NArgs) (acc : Cell)
    (h : pyTruthy a.eval_time = false) :
    ((newRowB2N a acc).eval_time = Cell.str "N/A") ∧
    (∀ (r : RowB2N) (s : String) (r2 : RowB2N), r.eval_time = Cell.str s →
      updateRowB2N a acc r = .ok r2 → (stringifyRow r2).eval_time = Cell.str s) := by
  constructor
  · simp [newRowB2N, h]
  · intro r s r2 hs hup
    have hok : updateRowB2N a acc r =
        .ok { updateHarmB2N (updateAccB2N a acc r) with timestamp := a.now } := by
      unfold updateRowB2N updateEvalB2N
      rw [h]
      simp
    rw [hok] at hup
    cases hup
    simp [stringifyRow, updateHarmB2N_eval_time, updateAccB2N_eval_time, hs, Cell.toStr]

/-- C10 witness: a creation with absent eval time records `'N/A'`, and the
concrete merge of the new phase into `rowP` (stored eval time `'N/A'`)
leaves the field unchanged. -/
theorem C10_witness :
    (newRowB2N b2nBase (Cell.num 80)).eval_time = Cell.str "N/A" ∧
    (stringifyRow { rowP with new_acc := Cell.num 60,
                              harmonic_mean := Cell.str "68.57",
                              timestamp := "t2" }).eval_time = Cell.str "N/A" :=
  ⟨(C10_falsy_eval_time_missing b2nBase (Cell.num 80) (by decide)).1,
   (C10_falsy_eval_time_missing b2nNew (Cell.num 60) (by decide)).2 rowP "N/A"
     { rowP with new_acc := Cell.num 60, harmonic_mean := Cell.str "68.57",
                 timestamp := "t2" } (by decide) (by rfl)⟩

/-! ## Claim C5: one row per logical key -/

/-- The logical record key of a persisted row: (model, dataset, shot, seed)
— exactly the fields `log_base2new_result` compares, with `subtask`
excluded. -/
def rowKey (r : RowB2N) : String × String × String × String :=
  (r.model, r.dataset, r.shot, r.seed)

/-- The logical key an ingest call targets. -/
def argsKey (a : B2NArgs) : String × String × String × String :=
  (a.model, a.dataset, toString a.shot, toString a.seed)

theorem rowMatches_iff (a : B2NArgs) (r : RowB2N) :
    rowMatches a r = true ↔ rowKey r = argsKey a := by
  simp only [rowMatches, rowKey, argsKey, Bool.and_eq_true, beq_iff_eq, Prod.mk.injEq]
  tauto

theorem updateAccB2N_key (a : B2NArgs) (acc : Cell) (r : RowB2N) :
    rowKey (updateAccB2N a acc r) = rowKey r := by
  unfold updateAccB2N
  split <;> rfl

theorem updateHarmB2N_key (r1 : RowB2N) : rowKey (updateHarmB2N r1) = rowKey r1 := by
  unfold updateHarmB2N
  split
  · split <;> rfl
  · rfl

theorem updateEvalB2N_key (a : B2NArgs) (r2 r3 : RowB2N)
    (h : updateEvalB2N a r2 = .ok r3) : rowKey r3 = rowKey r2 := by
  unfold updateEvalB2N at h
  split at h
  · split at h
    · simp at h
    · injection h with h2
      subst h2
      rfl
  · injection h with h2
    subst h2
    rfl

theorem updateRowB2N_key (a : B2NArgs) (acc : Cell) (r r2 : RowB2N)
    (h : updateRowB2N a acc r = .ok r2) : rowKey r2 = rowKey r := by
  unfold updateRowB2N at h
  rw [updateEvalB2N_key _ _ _ h, updateHarmB2N_key, updateAccB2N_key]

theorem replaceFirst_map_key (p : RowB2N → Bool) (f : RowB2N → RowB2N)
    (hf : ∀ x, p x = true → rowKey (f x) = rowKey x) (l : List RowB2N) :
    (replaceFirst p f l).map rowKey = l.map rowKey := by
  induction l with
  | nil => rfl
  | cons x xs ih =>
      unfold replaceFirst
      by_cases hp : p x = true
      · simp [hp, hf x hp]
      · simp [hp, ih]

theorem stringify_map_key (l : List RowB2N) :
    ((l.map stringifyRow).map rowKey) = l.map rowKey := by
  rw [List.map_map]
  apply List.map_congr_left
  intro x _
  rfl

theorem ingestB2N_keys_of_match (rows : List RowB2N) (a : B2NArgs) (acc : Cell)
    (h : rows.any (fun r => rowMatches a r) = true) :
    (ingestB2N rows a acc).1.map rowKey = rows.map rowKey := by
  cases hf : rows.find? (fun r => rowMatches a r) with
  | none =>
      exfalso
      rw [List.any_eq_true] at h
      obtain ⟨r, hr, hpr⟩ := h
      rw [List.find?_eq_none] at hf
      exact absurd hpr (by simpa using hf r hr)
  | some r =>
      have hpr : rowMatches a r = true := List.find?_some hf
      have hkr : rowKey r = argsKey a := (rowMatches_iff a r).mp hpr
      have hred : ingestB2N rows a acc =
          (match updateRowB2N a acc r with
           | .error e => (rows, some e)
           | .ok r2 =>
               ((replaceFirst (fun r3 => rowMatches a r3) (fun _ => r2) rows).map stringifyRow,
                 accPrintErr acc)) := by
        unfold ingestB2N
        rw [hf]
      rw [hred]
      cases hu : updateRowB2N a acc r with
      | error e => rfl
      | ok r2 =>
          show ((replaceFirst (fun r3 => rowMatches a r3) (fun _ => r2) rows).map
              stringifyRow).map rowKey = rows.map rowKey
          rw [stringify_map_key]
          exact replaceFirst_map_key _ _ (fun x hx => by
            rw [updateRowB2N_key a acc r r2 hu, hkr, (rowMatches_iff a x).mp hx]) rows

theorem ingestB2N_keys_of_no_match (rows : List RowB2N) (a : B2NArgs) (acc : Cell)
    (h : rows.any (fun r => rowMatches a r) = false) :
    (ingestB2N rows a acc).1.map rowKey = rows.map rowKey ++ [argsKey a] := by
  cases hf : rows.find? (fun r => rowMatches a r) with
  | some r =>
      exfalso
      have hpr : rowMatches a r = true := List.find?_some hf
      have hr : r ∈ rows := List.mem_of_find?_eq_some hf
      have hyes : rows.any (fun r => rowMatches a r) = true := List.any_eq_true.mpr ⟨r, hr, hpr⟩
      rw [h] at hyes
      exact Bool.false_ne_true hyes
  | none =>
      have hred : ingestB2N rows a acc =
          ((rows ++ [newRowB2N a acc]).map stringifyRow, accPrintErr acc) := by
        unfold ingestB2N
        rw [hf]
      rw [hred]
      show ((rows ++ [newRowB2N a acc]).map stringifyRow).map rowKey =
        rows.map rowKey ++ [argsKey a]
      rw [stringify_map_key, List.map_append]
      rfl

theorem ingestB2N_length (rows : List RowB2N) (a : B2NArgs) (acc : Cell) :
    (ingestB2N rows a acc).1.length =
      if rows.any (fun r => rowMatches a r) then rows.length else rows.length + 1 := by
  by_cases h : rows.any (fun r => rowMatches a r) = true
  · have := congrArg List.length (ingestB2N_keys_of_match rows a acc h)
    simpa [List.length_map, h] using this
  · have hfalse : rows.any (fun r => rowMatches a r) = false := by
      simpa using h
    have := congrArg List.length (ingestB2N_keys_of_no_match rows a acc hfalse)
    simpa [List.length_map, hfalse] using this

theorem ingestB2N_nodup (rows : List RowB2N) (a : B2NArgs) (acc : Cell)
    (h : (rows.map rowKey).Nodup) : ((ingestB2N rows a acc).1.map rowKey).Nodup := by
  by_cases hm : rows.any (fun r => rowMatches a r) = true
  · rw [ingestB2N_keys_of_match rows a acc hm]
    exact h
  · have hfalse : rows.any (fun r => rowMatches a r) = false := by simpa using hm
    rw [ingestB2N_keys_of_no_match rows a acc hfalse]
    rw [List.nodup_append]
    refine ⟨h, List.nodup_singleton _, ?_⟩
    intro k hk hk1
    simp only [List.mem_singleton] at hk1
    subst hk1
    rw [List.mem_map] at hk
    obtain ⟨r, hr, hkey⟩ := hk
    have : rowMatches a r = true := (rowMatches_iff a r).mpr hkey
    have hall := List.any_eq_false.mp hfalse
    exact absurd this (by simpa using hall r hr)

theorem runIngests_nodup (ops : List (B2NArgs × Cell)) :
    ((runIngests ops).map rowKey).Nodup := by
  rw [runIngests]
  have h : ∀ (rows : List RowB2N), (rows.map rowKey).Nodup →
      ((ops.foldl (fun rows op => (ingestB2N rows op.1 op.2).1) rows).map rowKey).Nodup := by
    induction ops with
    | nil => intro rows h; exact h
    | cons op ops ih =>
        intro rows h
        rw [List.foldl_cons]
        exact ih _ (ingestB2N_nodup rows op.1 op.2 h)
  exact h [] (by simp)

/-- C5: starting from an empty two-phase ledger, any sequence of base/new
ingests keeps at most one row per (model, dataset, shots, seed) key — the
persisted keys stay pairwise distinct; and a single ingest leaves the row
count unchanged exactly when some row matches its key (in-place update, or
an aborted call), appending one row only when none matches. -/
theorem C5_logical_key_unique :
    (∀ ops : List (B2NArgs × Cell), ((runIngests ops).map rowKey).Nodup) ∧
    (∀ (rows : List RowB2N) (a : B2NArgs) (acc : Cell),
      (ingestB2N rows a acc).1.length =
        if rows.any (fun r => rowMatches a r) then rows.length else rows.length + 1) :=
  ⟨runIngests_nodup, ingestB2N_length⟩

/-! ## Claim C7: schema widening -/

theorem mem_pyInsertMinus2_self (x : α) (l : List α) : x ∈ pyInsertMinus2 x l := by
  simp [pyInsertMinus2]

theorem mem_pyInsertMinus2_of_mem (y x : α) (l : List α) (h : y ∈ l) :
    y ∈ pyInsertMinus2 x l := by
  rw [← List.take_append_drop (l.length - 2) l] at h
  simp only [pyInsertMinus2, List.mem_append] at h ⊢
  tauto

theorem mem_if_insert (c : Prop) [Decidable c] (y x : α) (l : List α) (h : y ∈ l) :
    y ∈ (if c then pyInsertMinus2 x l else l) := by
  split
  · exact mem_pyInsertMinus2_of_mem y x l h
  · exact h

theorem fsFieldnames_covers (m : Metrics) :
    (m.precision.isSome = true → "precision" ∈ fsFieldnames m) ∧
    (m.«recall».isSome = true → "recall" ∈ fsFieldnames m) ∧
    (m.f1_score.isSome = true → "f1_score" ∈ fsFieldnames m) ∧
    (m.balanced_accuracy.isSome = true → "balanced_accuracy" ∈ fsFieldnames m) := by
  refine ⟨?_, ?_, ?_, ?_⟩ <;> intro h <;> simp only [fsFieldnames]
  · apply mem_if_insert
    apply mem_if_insert
    apply mem_if_insert
    rw [if_pos h]
    exact mem_pyInsertMinus2_self _ _
  · apply mem_if_insert
    apply mem_if_insert
    rw [if_pos h]
    exact mem_pyInsertMinus2_self _ _
  · apply mem_if_insert
    rw [if_pos h]
    exact mem_pyInsertMinus2_self _ _
  · rw [if_pos h]
    exact mem_pyInsertMinus2_self _ _

/-- The metric dict of the C7 scenario: a run that now also reports a
`precision` value. -/
def metricsP : Metrics := { accuracy := some (.num 90), precision := some (.num 70) }

/-- C7, counterexample: the few-shot CSV is opened in APPEND mode and the
header is written only when the file is first created.  When a `precision`
column appears later, the appended row has 10 fields while the persisted
header still has the original 9 and does not contain `precision`: the
schema of the persisted table is NOT widened, and the new row is
misaligned with the header. -/
theorem C7_counterexample :
    (log_few_shot_result (some [fsBaseFieldnames,
        ["BiomedCoOp_BiomedCLIP", "N/A", "busi", "1", "2", "87.5", "5.00", "t0", ""]])
        fsArgsX metricsP).1 =
      [fsBaseFieldnames,
       ["BiomedCoOp_BiomedCLIP", "N/A", "busi", "1", "2", "87.5", "5.00", "t0", ""],
       ["BiomedCoOp_BiomedCLIP", "N/A", "busi", "1", "2", "90.0", "5.00", "70.0",
        "2025-01-01 00:00:00", ""]] ∧
    "precision" ∉ fsBaseFieldnames ∧
    fsBaseFieldnames.length = 9 ∧
    (["BiomedCoOp_BiomedCLIP", "N/A", "busi", "1", "2", "90.0", "5.00", "70.0",
      "2025-01-01 00:00:00", ""] : List String).length = 10 := by
  refine ⟨by rfl, by decide, by decide, by decide⟩

/-- C7 (amended): a write to an existing table appends exactly one row
rendered under the CURRENT call's fieldnames and leaves all previous rows
(header included) untouched; only a write that creates the file emits a
header, and that header does cover every optional metric column present in
the call's metric dict. -/
theorem C7_schema_not_widened :
    (∀ (rs : List (List String)) (a : FSArgs) (m : Metrics),
      (log_few_shot_result (some rs) a m).1 =
        rs ++ [(fsFieldnames m).map (fsRowField a m)]) ∧
    (∀ (a : FSArgs) (m : Metrics),
      (log_few_shot_result none a m).1 =
        [fsFieldnames m, (fsFieldnames m).map (fsRowField a m)]) ∧
    (∀ m : Metrics,
      (m.precision.isSome = true → "precision" ∈ fsFieldnames m) ∧
      (m.«recall».isSome = true → "recall" ∈ fsFieldnames m) ∧
      (m.f1_score.isSome = true → "f1_score" ∈ fsFieldnames m) ∧
      (m.balanced_accuracy.isSome = true → "balanced_accuracy" ∈ fsFieldnames m)) :=
  ⟨fun _ _ _ => rfl, fun _ _ => rfl, fsFieldnames_covers⟩

/-- C7 witness: the creation-path coverage applied at the concrete metric
dict that reports `precision`. -/
theorem C7_witness :
    metricsP.precision.isSome = true ∧ "precision" ∈ fsFieldnames metricsP :=
  ⟨by decide, (C7_schema_not_widened.2.2 metricsP).1 (by decide)⟩

/-! ## Claim C8: the 95% confidence interval -/

/-- C8: `compute_ci95` equals `1.96 ×` the POPULATION standard deviation
(`np.std` with its default `ddof=0`) divided by `sqrt(n)`, `n` the number
of contributing per-dataset means; over `[70, 80, 90]` the mean is `80`,
the population variance is `200/3` (a sample-corrected variance would be
`100`), and the confidence interval is `1.96 · stdDev / sqrt 3`. -/
theorem C8_ci95_population :
    (∀ l : List ℚ, compute_ci95 l = 1.96 * specPopStdDev l / Real.sqrt (l.length : ℝ)) ∧
    np_mean [70, 80, 90] = 80 ∧
    np_var [70, 80, 90] = 200 / 3 ∧
    compute_ci95 [70, 80, 90] = 1.96 * specPopStdDev [70, 80, 90] / Real.sqrt 3 := by
  have hgen : ∀ l : List ℚ,
      compute_ci95 l = 1.96 * specPopStdDev l / Real.sqrt (l.length : ℝ) := by
    intro l
    unfold compute_ci95 np_std specPopStdDev
    rw [np_var_eq]
  refine ⟨hgen, ?_, ?_, ?_⟩
  · rw [np_mean_eq]
    norm_num [List.sum_cons, List.sum_nil]
  · rw [np_var_eq]
    norm_num [List.sum_cons, List.sum_nil, List.map_cons, List.map_nil]
  · have hlen : ((([70, 80, 90] : List ℚ).length : ℕ) : ℝ) = 3 := by norm_num
    rw [hgen [70, 80, 90], hlen]

/-! ## Claim C9: the pivot table -/

theorem pdFold_look_of_not_mem (L : List (String × Int × ℚ)) (d : String) (k : Int)
    (h : ∀ r ∈ L, ¬(r.1 = d ∧ r.2.1 = k)) (p : PD) :
    (L.foldl (fun p r => p.insert r.1 r.2.1 r.2.2) p).look d k = p.look d k := by
  induction L generalizing p with
  | nil => rfl
  | cons r L ih =>
      rw [List.foldl_cons, ih (fun x hx => h x (List.mem_cons_of_mem r hx))]
      show (if d == r.1 && k == r.2.1 then some r.2.2 else p.look d k) = p.look d k
      rw [if_neg]
      simp only [Bool.and_eq_true, beq_iff_eq]
      rintro ⟨h1, h2⟩
      exact h r (List.mem_cons_self r L) ⟨h1.symm, h2.symm⟩

theorem pdFold_look_of_mem (L : List (String × Int × ℚ)) (d : String) (k : Int) (v : ℚ)
    (hall : ∀ r ∈ L, r.1 = d → r.2.1 = k → r.2.2 = v)
    (hmem : ∃ r ∈ L, r.1 = d ∧ r.2.1 = k) (p : PD) :
    (L.foldl (fun p r => p.insert r.1 r.2.1 r.2.2) p).look d k = some v := by
  induction L generalizing p with
  | nil => simp at hmem
  | cons r L ih =>
      rw [List.foldl_cons]
      by_cases hex : ∃ r2 ∈ L, r2.1 = d ∧ r2.2.1 = k
      · exact ih (fun x hx => hall x (List.mem_cons_of_mem r hx)) hex _
      · obtain ⟨r0, hr0, he⟩ := hmem
        rcases List.mem_cons.mp hr0 with rfl | hr0tail
        · rw [pdFold_look_of_not_mem L d k (fun x hx hc => hex ⟨x, hx, hc⟩)]
          show (if d == r0.1 && k == r0.2.1 then some r0.2.2 else p.look d k) = some v
          rw [if_pos (by simp [he.1, he.2]),
              hall r0 (List.mem_cons_self r0 L) he.1 he.2]
        · exact absurd ⟨r0, hr0tail, he⟩ hex

theorem mem_detailed (res : String → Int → Option ℚ) (x : String × Int × ℚ) :
    x ∈ detailed_results res ↔
      x.1 ∈ datasets ∧ x.2.1 ∈ shots_list ∧ res x.1 x.2.1 = some x.2.2 := by
  obtain ⟨d, k, v⟩ := x
  simp only [detailed_results, List.mem_flatMap, List.mem_filterMap, Option.map_eq_some']
  constructor
  · rintro ⟨d', hd', k', hk', a, hres', heq⟩
    obtain ⟨rfl, rfl, rfl⟩ : d' = d ∧ k' = k ∧ a = v := by
      simpa [Prod.ext_iff] using heq
    exact ⟨hd', hk', hres'⟩
  · rintro ⟨hd, hk, hres⟩
    exact ⟨d, hd, k, hk, v, hres, rfl⟩

theorem detailed_mem_res (res : String → Int → Option ℚ) (x : String × Int × ℚ)
    (hx : x ∈ detailed_results res) : res x.1 x.2.1 = some x.2.2 :=
  ((mem_detailed res x).mp hx).2.2

theorem pivot_data_look (res : String → Int → Option ℚ) (d : String) (k : Int)
    (hd : d ∈ datasets) (hk : k ∈ shots_list) :
    (pivot_data res).look d k = res d k := by
  cases hres : res d k with
  | some v =>
      apply pdFold_look_of_mem
      · intro r hr h1 h2
        have hre := detailed_mem_res res r hr
        rw [h1, h2, hres] at hre
        exact (Option.some.injEq _ _ ▸ hre).symm ▸ rfl
      · exact ⟨(d, k, v), (mem_detailed res (d, k, v)).mpr ⟨hd, hk, hres⟩, rfl, rfl⟩
  | none =>
      have hno : ∀ r ∈ detailed_results res, ¬(r.1 = d ∧ r.2.1 = k) := by
        rintro r hr ⟨h1, h2⟩
        have hre := detailed_mem_res res r hr
        rw [h1, h2, hres] at hre
        exact Option.noConfusion hre
      rw [pivot_data, pdFold_look_of_not_mem _ _ _ hno]

theorem myContains_iff (l : List String) (a : String) : l.contains a = true ↔ a ∈ l :=
  List.elem_iff

theorem pdFold_keys_mem (L : List (String × Int × ℚ)) (d : String) (p : PD) :
    d ∈ (L.foldl (fun p r => p.insert r.1 r.2.1 r.2.2) p).keys ↔
      d ∈ p.keys ∨ ∃ r ∈ L, r.1 = d := by
  induction L generalizing p with
  | nil => simp
  | cons r L ih =>
      rw [List.foldl_cons, ih]
      have hins : d ∈ (p.insert r.1 r.2.1 r.2.2).keys ↔ d ∈ p.keys ∨ d = r.1 := by
        show d ∈ (if p.keys.contains r.1 then p.keys else p.keys ++ [r.1]) ↔ _
        by_cases hc : p.keys.contains r.1 = true
        · rw [if_pos hc]
          have := (myContains_iff _ _).mp hc
          constructor
          · exact Or.inl
          · rintro (h | rfl)
            · exact h
            · exact this
        · rw [if_neg hc]
          simp [List.mem_append]
      rw [hins]
      constructor
      · rintro ((h | rfl) | ⟨r2, hr2, h2⟩)
        · exact Or.inl h
        · exact Or.inr ⟨r, List.mem_cons_self r L, rfl⟩
        · exact Or.inr ⟨r2, List.mem_cons_of_mem r hr2, h2⟩
      · rintro (h | ⟨r2, hr2, h2⟩)
        · exact Or.inl (Or.inl h)
        · rcases List.mem_cons.mp hr2 with rfl | htail
          · exact Or.inl (Or.inr h2.symm)
          · exact Or.inr ⟨r2, htail, h2⟩

theorem pivot_data_keys (res : String → Int → Option ℚ) (d : String) (hd : d ∈ datasets) :
    (pivot_data res).keys.contains d = shots_list.any (fun k => (res d k).isSome) := by
  have hiff : ((pivot_data res).keys.contains d = true) ↔
      (shots_list.any (fun k => (res d k).isSome) = true) := by
    rw [myContains_iff, pivot_data, pdFold_keys_mem, List.any_eq_true]
    constructor
    · rintro (h | ⟨r, hr, h1⟩)
      · simp at h
      · obtain ⟨_, hk, hres⟩ := (mem_detailed res r).mp hr
        rw [h1] at hres
        exact ⟨r.2.1, hk, by simp [hres]⟩
    · rintro ⟨k, hk, hsome⟩
      obtain ⟨v, hv⟩ := Option.isSome_iff_exists.mp hsome
      exact Or.inr ⟨(d, k, v), (mem_detailed res (d, k, v)).mpr ⟨hd, hk, hv⟩, rfl⟩
  cases h1 : (pivot_data res).keys.contains d <;>
    cases h2 : shots_list.any (fun k => (res d k).isSome) <;> simp_all

theorem filterMap_eq_map_filter (l : List α) (f : α → Option β) (b0 : β) :
    l.filterMap f = (l.filter (fun x => (f x).isSome)).map (fun x => (f x).getD b0) := by
  induction l with
  | nil => rfl
  | cons x l ih =>
      cases hf : f x <;> simp [List.filterMap_cons, List.filter_cons, hf, ih]

theorem results_by_shots_filter (res : String → Int → Option ℚ) (k : Int) :
    results_by_shots res k =
      (datasets.filter (fun d => (res d k).isSome)).map (fun d => (res d k).getD 0) :=
  filterMap_eq_map_filter datasets (fun d => res d k) 0

theorem pivotBody_eq (res : String → Int → Option ℚ) :
    pivotBody res =
      (datasets.filter (fun d => shots_list.any (fun k => (res d k).isSome))).map (fun d =>
        d :: shots_list.map (fun k =>
          match res d k with
          | some a => fmt2 a
          | none => "N/A")) := by
  unfold pivotBody
  rw [List.filter_congr (fun d hd => pivot_data_keys res d hd)]
  apply List.map_congr_left
  intro d hd
  have hd2 := List.mem_filter.mp hd
  congr 1
  apply List.map_congr_left
  intro k hk
  rw [pivot_data_look res d k hd2.1 hk]

theorem summaryRow_eq (res : String → Int → Option ℚ) :
    summaryRow res = "AVERAGE" :: shots_list.map (fun k =>
      if ((datasets.filter (fun d => (res d k).isSome)).map
            (fun d => (res d k).getD 0)).isEmpty
      then "N/A"
      else fmt2 (np_mean ((datasets.filter (fun d => (res d k).isSome)).map
            (fun d => (res d k).getD 0)))) := by
  unfold summaryRow
  congr 1
  apply List.map_congr_left
  intro k _
  rw [results_by_shots_filter res k]
  cases h : ((datasets.filter (fun d => (res d k).isSome)).map
      (fun d => (res d k).getD 0)).isEmpty <;> simp [h]

/-- C9: for every record set the pivot header carries every column of the
fixed shot order; the body has exactly one row per dataset that has at
least one record, with each missing (dataset, shot) cell rendered as the
sentinel `"N/A"` (and a present cell as `f"{acc:.2f}"`), datasets with no
records being skipped entirely; and the `AVERAGE` marginal row averages
each column over exactly the rows having a value in that column, falling
back to the sentinel when no row contributes. -/
theorem C9_pivot_sentinels (res : String → Int → Option ℚ) :
    (pivot_table res).head? =
      some ("Dataset" :: shots_list.map (fun k => toString k ++ "-shot")) ∧
    pivotBody res =
      (datasets.filter (fun d => shots_list.any (fun k => (res d k).isSome))).map (fun d =>
        d :: shots_list.map (fun k =>
          match res d k with
          | some a => fmt2 a
          | none => "N/A")) ∧
    summaryRow res = "AVERAGE" :: shots_list.map (fun k =>
      if ((datasets.filter (fun d => (res d k).isSome)).map
            (fun d => (res d k).getD 0)).isEmpty
      then "N/A"
      else fmt2 (np_mean ((datasets.filter (fun d => (res d k).isSome)).map
            (fun d => (res d k).getD 0)))) ∧
    pivot_table res = pivotHeader :: (pivotBody res ++ [summaryRow res]) :=
  ⟨rfl, pivotBody_eq res, summaryRow_eq res, rfl⟩
